import Mathlib

/-!
Verification of the DaktLib-Core memory and buffer subsystem.

Shallow embedding of the C++ sources:
  * `src/src/Buffer.cpp` / `src/include/dakt/core/Buffer.hpp`
    (Buffer, BufferReader, BufferWriter),
  * the memory translation unit (HeapAllocator, ArenaAllocator, PoolAllocator)
    and its header (alignUp and friends),
  * `Types.hpp` (ConstByteSpan = std::span<const byte>) and the repository's
    own `types/Span.hpp`.

Bytes are modelled as natural numbers below 256; byte sequences as `List Nat`.
`usize` arithmetic is modelled as arithmetic on `Nat` reduced modulo `2 ^ 64`
where the machine word wraps.
-/

namespace DaktCore

/-- Cardinality of the 64-bit machine word `usize`. -/
def usizeCard : Nat := 2 ^ 64

/-- `usize` addition (wraps modulo `2 ^ 64`). -/
def wAdd (x y : Nat) : Nat := (x + y) % usizeCard

/-- `usize` subtraction (wraps modulo `2 ^ 64`). -/
def wSub (x y : Nat) : Nat := (x + (usizeCard - y % usizeCard)) % usizeCard

/-- `usize` bitwise complement `~x` (within 64 bits). -/
def wNot (x : Nat) : Nat := usizeCard - 1 - x % usizeCard

/-- `alignUp(value, alignment)` from the memory header:
`(value + alignment - 1) & ~(alignment - 1)` in `usize` arithmetic. -/
def alignUp (value alignment : Nat) : Nat :=
  wSub (wAdd value alignment) 1 &&& wNot (wSub alignment 1)

lemma wSub_eq_sub {x y : Nat} (hxy : y ≤ x) (hx : x < usizeCard) :
    wSub x y = x - y := by
  unfold wSub
  have hy : y % usizeCard = y := Nat.mod_eq_of_lt (lt_of_le_of_lt hxy hx)
  rw [hy]
  have h1 : x + (usizeCard - y) = usizeCard + (x - y) := by omega
  rw [h1, Nat.add_mod_left]
  exact Nat.mod_eq_of_lt (by omega)

lemma wAdd_sub_one (v s : Nat) (hs : 0 < s) (h : v + s ≤ usizeCard) :
    wSub (wAdd v s) 1 = v + s - 1 := by
  unfold wAdd wSub
  have hcard : 0 < usizeCard := by norm_num [usizeCard]
  rcases Nat.lt_or_ge (v + s) usizeCard with h1 | h1
  · rw [Nat.mod_eq_of_lt h1]
    have h2 : (1 : Nat) % usizeCard = 1 := Nat.mod_eq_of_lt (by norm_num [usizeCard])
    rw [h2]
    have h3 : v + s + (usizeCard - 1) = usizeCard + (v + s - 1) := by omega
    rw [h3, Nat.add_mod_left]
    exact Nat.mod_eq_of_lt (by omega)
  · have heq : v + s = usizeCard := le_antisymm h h1
    rw [heq, Nat.mod_self]
    have h2 : (1 : Nat) % usizeCard = 1 := Nat.mod_eq_of_lt (by norm_num [usizeCard])
    rw [h2, Nat.zero_add]
    have h3 : usizeCard - 1 < usizeCard := by omega
    rw [Nat.mod_eq_of_lt h3]

lemma wSub_one (s : Nat) (hs : 0 < s) (h : s < usizeCard) : wSub s 1 = s - 1 := by
  exact wSub_eq_sub hs h

lemma wNot_sub_one (k : Nat) (hk : k ≤ 63) :
    wNot (2 ^ k - 1) = usizeCard - 2 ^ k := by
  unfold wNot
  have h1 : 2 ^ k - 1 < usizeCard := by
    have : (2 : Nat) ^ k ≤ 2 ^ 63 := Nat.pow_le_pow_right (by norm_num) hk
    unfold usizeCard
    omega
  rw [Nat.mod_eq_of_lt h1]
  have h2 : 1 ≤ 2 ^ k := Nat.one_le_two_pow
  omega

/-- Masking with the high-bit mask `2 ^ 64 - 2 ^ k` rounds a 64-bit value down
to a multiple of `2 ^ k`. -/
lemma land_mask_high (x k : Nat) (hx : x < 2 ^ 64) (hk : k ≤ 64) :
    x &&& (2 ^ 64 - 2 ^ k) = 2 ^ k * (x / 2 ^ k) := by
  have hm : 2 ^ 64 - 2 ^ k = (2 ^ (64 - k) - 1) <<< k := by
    rw [Nat.shiftLeft_eq, Nat.sub_mul, one_mul, ← pow_add]
    congr 2
    omega
  have hrhs : 2 ^ k * (x / 2 ^ k) = (x >>> k) <<< k := by
    rw [Nat.shiftLeft_eq, Nat.shiftRight_eq_div_pow, Nat.mul_comm]
  rw [hm, hrhs]
  apply Nat.eq_of_testBit_eq
  intro i
  rw [Nat.testBit_land, Nat.testBit_shiftLeft, Nat.testBit_shiftLeft,
    Nat.testBit_shiftRight, Nat.testBit_two_pow_sub_one]
  by_cases hik : k ≤ i
  · by_cases hi64 : i < 64
    · have h1 : i - k < 64 - k := by omega
      have h2 : k + (i - k) = i := by omega
      simp [hik, h1, h2]
    · have h0 : x.testBit i = false := by
        apply Nat.testBit_lt_two_pow
        calc x < 2 ^ 64 := hx
          _ ≤ 2 ^ i := Nat.pow_le_pow_right (by norm_num) (by omega)
      have h1 : ¬ (i - k < 64 - k) := by omega
      have h2 : x.testBit (k + (i - k)) = false := by
        rw [show k + (i - k) = i by omega, h0]
      simp [hik, h1, h2, h0]
  · simp [hik]

/-- For a power-of-two alignment that does not overflow, `alignUp` computes the
arithmetic ceiling `2 ^ k * ((v + 2 ^ k - 1) / 2 ^ k)`. -/
lemma alignUp_pow2 (v k : Nat) (hk : k ≤ 63) (hov : v + 2 ^ k ≤ 2 ^ 64) :
    alignUp v (2 ^ k) = 2 ^ k * ((v + 2 ^ k - 1) / 2 ^ k) := by
  have hs : 0 < 2 ^ k := Nat.pos_pow_of_pos k (by norm_num)
  have hslt : 2 ^ k < usizeCard := by
    have : (2 : Nat) ^ k ≤ 2 ^ 63 := Nat.pow_le_pow_right (by norm_num) hk
    unfold usizeCard
    calc 2 ^ k ≤ 2 ^ 63 := this
      _ < 2 ^ 64 := by norm_num
  unfold alignUp
  rw [wAdd_sub_one v (2 ^ k) hs (by unfold usizeCard; exact hov),
    wSub_one (2 ^ k) hs hslt, wNot_sub_one k hk]
  have hx : v + 2 ^ k - 1 < 2 ^ 64 := by omega
  exact land_mask_high (v + 2 ^ k - 1) k hx (by omega)

/-- C8: the claim as frozen fails on the machine-word code: at `v = 2 ^ 64 - 1`,
`s = 2` the computation `(v + s - 1)` wraps, `alignUp` returns `0`, and the
claimed `alignUp(v, s) >= v` is false (the other two conjuncts survive). -/
theorem alignUp_claim_counterexample :
    ¬ (alignUp (2 ^ 64 - 1) 2 % 2 = 0 ∧ 2 ^ 64 - 1 ≤ alignUp (2 ^ 64 - 1) 2 ∧
       wSub (alignUp (2 ^ 64 - 1) 2) (2 ^ 64 - 1) < 2) := by
  decide

/-- C8 (amended): for every `usize` value `v` and power-of-two alignment
`s = 2 ^ k` such that `v + s - 1` does not overflow the machine word,
`alignUp(v, s) % s = 0`, `alignUp(v, s) >= v` and `alignUp(v, s) - v < s`
(the subtraction being the machine-word subtraction). -/
theorem alignUp_spec (v k : Nat) (hk : k ≤ 63) (hov : v + 2 ^ k ≤ 2 ^ 64) :
    alignUp v (2 ^ k) % 2 ^ k = 0 ∧ v ≤ alignUp v (2 ^ k) ∧
      wSub (alignUp v (2 ^ k)) v < 2 ^ k := by
  have hs : 0 < 2 ^ k := Nat.pos_pow_of_pos k (by norm_num)
  have hchar := alignUp_pow2 v k hk hov
  set x := v + 2 ^ k - 1 with hxdef
  have hmod : 2 ^ k * (x / 2 ^ k) + x % 2 ^ k = x := Nat.div_add_mod x (2 ^ k)
  have hrem : x % 2 ^ k < 2 ^ k := Nat.mod_lt x hs
  have hle : 2 ^ k * (x / 2 ^ k) ≤ x := by omega
  have hge : v ≤ 2 ^ k * (x / 2 ^ k) := by omega
  refine ⟨?_, ?_, ?_⟩
  · rw [hchar]
    exact Nat.mul_mod_right (2 ^ k) _
  · rw [hchar]
    exact hge
  · have hlt : alignUp v (2 ^ k) < usizeCard := by
      rw [hchar]
      unfold usizeCard
      omega
    rw [wSub_eq_sub (by rw [hchar]; exact hge) hlt, hchar]
    omega

/-- Witness for C8 at `v = 5`, `s = 4`: `alignUp 5 4 = 8`. -/
theorem alignUp_spec_witness :
    (2 : Nat) ≤ 63 ∧ 5 + 2 ^ 2 ≤ 2 ^ 64 ∧
      (alignUp 5 (2 ^ 2) % 2 ^ 2 = 0 ∧ 5 ≤ alignUp 5 (2 ^ 2) ∧
        wSub (alignUp 5 (2 ^ 2)) 5 < 2 ^ 2) :=
  ⟨by norm_num, by norm_num, alignUp_spec 5 2 (by norm_num) (by norm_num)⟩

/-!
### BufferReader (Buffer.cpp / Buffer.hpp)

A `BufferReader` borrows an immutable byte view `data` and keeps a cursor
`pos`.  Strings are byte lists (no UTF-8 validation is performed by the code).
-/

structure BufferReader where
  data : List Nat
  pos : Nat
deriving DecidableEq, Repr

def BufferReader.remaining (r : BufferReader) : Nat := r.data.length - r.pos

/-- `eof()`: `m_pos >= m_data.size()`. -/
def BufferReader.eof (r : BufferReader) : Bool := decide (r.data.length ≤ r.pos)

/-- The template `read<T>()` generalised over `sz = sizeof(T)`: the decoded
value of `T` is a function (memcpy) of the `sz` bytes at the cursor, so the
model returns those bytes.  Fails without moving `pos` when fewer than `sz`
bytes remain. -/
def BufferReader.read (r : BufferReader) (sz : Nat) : Option (List Nat) × BufferReader :=
  if r.remaining < sz then (none, r)
  else (some ((r.data.drop r.pos).take sz), ⟨r.data, r.pos + sz⟩)

/-- `readString(length)`: exact-length string read. -/
def BufferReader.readString (r : BufferReader) (length : Nat) :
    Option (List Nat) × BufferReader :=
  if r.remaining < length then (none, r)
  else (some ((r.data.drop r.pos).take length), ⟨r.data, r.pos + length⟩)

/-- Little-endian decoding of the 4 prefix bytes of a `u32` (the platform is
little-endian, so `fromLittleEndian` is the identity byte-swap). -/
def u32OfBytes (bs : List Nat) : Nat :=
  bs.getD 0 0 + 2 ^ 8 * bs.getD 1 0 + 2 ^ 16 * bs.getD 2 0 + 2 ^ 24 * bs.getD 3 0

/-- `readU32()` = `readLE<u32>()`: a 4-byte `read` followed by the
little-endian decode. -/
def BufferReader.readU32 (r : BufferReader) : Option Nat × BufferReader :=
  match r.read 4 with
  | (some bs, r1) => (some (u32OfBytes bs), r1)
  | (none, r1) => (none, r1)

/-- `readLengthPrefixedString()`: `read<u32>()`, then `readString(*len)`. -/
def BufferReader.readLengthPrefixedString (r : BufferReader) :
    Option (List Nat) × BufferReader :=
  match r.readU32 with
  | (none, r1) => (none, r1)
  | (some len, r1) => r1.readString len

/-- The scanning loop shared by both `readNullTerminatedString` variants:
`while (m_pos < limit && m_data[m_pos] != byte{0}) ++m_pos;`.  The fuel
argument makes the recursion structural; `limit - pos` steps always suffice
because each iteration increments `pos` and the loop stops at `limit`. -/
def scanLoop (d : List Nat) (limit : Nat) : Nat → Nat → Nat
  | pos, 0 => pos
  | pos, fuel + 1 =>
    if pos < limit && d.getD pos 1 != 0 then scanLoop d limit (pos + 1) fuel else pos

/-- Final cursor of the scanning loop started at `pos` with bound `limit`. -/
def scanZero (d : List Nat) (pos limit : Nat) : Nat :=
  scanLoop d limit pos (limit - pos)

/-- `readNullTerminatedString()` (unbounded): scans up to the end of data; on
failure restores `pos` (`m_pos = start`), on success excludes the terminator
and skips past it. -/
def BufferReader.readNullTerminatedString (r : BufferReader) :
    Option (List Nat) × BufferReader :=
  let start := r.pos
  let stop := scanZero r.data r.pos r.data.length
  if r.data.length ≤ stop then (none, ⟨r.data, start⟩)
  else (some ((r.data.drop start).take (stop - start)), ⟨r.data, stop + 1⟩)

/-- `readNullTerminatedString(maxLength)`: scans only up to
`limit = min(m_pos + maxLength, m_data.size())` (the addition is `usize`
addition), always returns the scanned bytes, and skips a terminator when the
byte at the final cursor exists and is zero. -/
def BufferReader.readNullTerminatedStringMax (r : BufferReader) (maxLength : Nat) :
    Option (List Nat) × BufferReader :=
  let start := r.pos
  let limit := min (wAdd r.pos maxLength) r.data.length
  let stop := scanZero r.data r.pos limit
  let result := (r.data.drop start).take (stop - start)
  if stop < r.data.length ∧ r.data.getD stop 1 = 0 then (some result, ⟨r.data, stop + 1⟩)
  else (some result, ⟨r.data, stop⟩)

lemma scanLoop_spec (d : List Nat) (limit : Nat) :
    ∀ fuel pos, limit ≤ pos + fuel →
      pos ≤ scanLoop d limit pos fuel ∧
      scanLoop d limit pos fuel ≤ max pos limit ∧
      (∀ i, pos ≤ i → i < scanLoop d limit pos fuel → d.getD i 1 ≠ 0) ∧
      (scanLoop d limit pos fuel < limit → d.getD (scanLoop d limit pos fuel) 1 = 0) := by
  intro fuel
  induction fuel with
  | zero =>
    intro pos h
    rw [scanLoop]
    refine ⟨le_refl pos, le_max_left pos limit, ?_, ?_⟩
    · intro i h1 h2
      omega
    · intro hlt
      omega
  | succ n ih =>
    intro pos h
    rw [scanLoop]
    by_cases hc : (pos < limit && d.getD pos 1 != 0) = true
    · rw [if_pos hc]
      rw [Bool.and_eq_true, decide_eq_true_eq, bne_iff_ne] at hc
      obtain ⟨hlim, hnz⟩ := hc
      obtain ⟨ih1, ih2, ih3, ih4⟩ := ih (pos + 1) (by omega)
      refine ⟨by omega, by omega, ?_, ih4⟩
      intro i h1 h2
      rcases Nat.eq_or_lt_of_le h1 with rfl | h1
      · exact hnz
      · exact ih3 i h1 h2
    · rw [if_neg hc]
      rw [Bool.and_eq_true, decide_eq_true_eq, bne_iff_ne] at hc
      push_neg at hc
      refine ⟨le_refl pos, le_max_left pos limit, ?_, ?_⟩
      · intro i h1 h2
        omega
      · intro hlt
        exact hc hlt

lemma scanZero_spec (d : List Nat) (pos limit : Nat) :
    pos ≤ scanZero d pos limit ∧
    scanZero d pos limit ≤ max pos limit ∧
    (∀ i, pos ≤ i → i < scanZero d pos limit → d.getD i 1 ≠ 0) ∧
    (scanZero d pos limit < limit → d.getD (scanZero d pos limit) 1 = 0) :=
  scanLoop_spec d limit (limit - pos) pos (by omega)

/-- C3: `read<T>()` (with `sz = sizeof(T)`) returns the bytes the value is
decoded from and advances `pos` by exactly `sz` when `remaining() >= sz`;
otherwise it returns none and leaves `pos` unchanged. -/
theorem read_spec (d : List Nat) (p sz : Nat) :
    BufferReader.read ⟨d, p⟩ sz =
      if sz ≤ d.length - p then (some ((d.drop p).take sz), ⟨d, p + sz⟩)
      else (none, ⟨d, p⟩) := by
  unfold BufferReader.read BufferReader.remaining
  by_cases h : sz ≤ d.length - p
  · rw [if_pos h, if_neg (by omega : ¬ (d.length - p < sz))]
  · rw [if_neg h, if_pos (by omega : d.length - p < sz)]

/-- C4: the unbounded `readNullTerminatedString()`.  If no zero byte occurs at
any index in `[pos, size)` it fails with `pos` unchanged; if the first zero at
or after `pos` sits at index `z` it returns the bytes `[pos, z)` and sets `pos`
to `z + 1`. -/
theorem readNullTerminatedString_spec (d : List Nat) (p : Nat) :
    ((∀ i, p ≤ i → i < d.length → d.getD i 1 ≠ 0) →
        BufferReader.readNullTerminatedString ⟨d, p⟩ = (none, ⟨d, p⟩)) ∧
    (∀ z, p ≤ z → z < d.length → d.getD z 1 = 0 →
        (∀ i, p ≤ i → i < z → d.getD i 1 ≠ 0) →
        BufferReader.readNullTerminatedString ⟨d, p⟩ =
          (some ((d.drop p).take (z - p)), ⟨d, z + 1⟩)) := by
  obtain ⟨h1, h2, h3, h4⟩ := scanZero_spec d p d.length
  constructor
  · intro hall
    have hstop : d.length ≤ scanZero d p d.length := by
      by_contra hlt
      push_neg at hlt
      exact hall _ h1 hlt (h4 hlt)
    simp only [BufferReader.readNullTerminatedString]
    rw [if_pos hstop]
  · intro z hpz hzlen hz0 hleast
    have hstop : scanZero d p d.length = z := by
      rcases Nat.lt_trichotomy (scanZero d p d.length) z with hlt | heq | hgt
      · exact absurd (h4 (by omega)) (hleast _ h1 hlt)
      · exact heq
      · exact absurd hz0 (h3 z hpz hgt)
    simp only [BufferReader.readNullTerminatedString]
    rw [hstop, if_neg (by omega : ¬ d.length ≤ z)]

/-- Witness for C4: both branches at concrete inputs — a zero-free buffer
fails in place, and a buffer with its first zero at index 1 returns one byte
and skips the terminator. -/
theorem readNullTerminatedString_spec_witness :
    BufferReader.readNullTerminatedString ⟨[1, 2], 0⟩ = (none, ⟨[1, 2], 0⟩) ∧
    BufferReader.readNullTerminatedString ⟨[7, 0, 3], 0⟩ =
      (some [7], ⟨[7, 0, 3], 2⟩) := by
  constructor
  · exact (readNullTerminatedString_spec [1, 2] 0).1
      (by intro i hi hlen; simp at hlen; interval_cases i <;> decide)
  · exact ((readNullTerminatedString_spec [7, 0, 3] 0).2 1 (by omega) (by decide)
      (by decide) (by intro i hi hlt; interval_cases i; decide)).trans (by decide)

/-- C5: the claim as frozen fails when the byte just past the `maxLength`
window is a zero: on `[1,1,1,1,1,0]` with `maxLength = 5` the call returns the
5 scanned bytes but consumes the terminator at index 5 as well, leaving
`position() = 6`, not `min(maxLength, remaining()) = 5`. -/
theorem readNullTerminatedStringMax_claim_counterexample :
    (BufferReader.readNullTerminatedStringMax ⟨[1, 1, 1, 1, 1, 0], 0⟩ 5).1 =
        some [1, 1, 1, 1, 1] ∧
    (BufferReader.readNullTerminatedStringMax ⟨[1, 1, 1, 1, 1, 0], 0⟩ 5).2.pos = 6 ∧
    (BufferReader.readNullTerminatedStringMax ⟨[1, 1, 1, 1, 1, 0], 0⟩ 5).2.pos ≠
        min 5 ((6 : Nat) - 0) := by
  decide

/-- C5 (amended): with no zero byte in the window `[pos, pos + maxLength)`,
`readNullTerminatedString(maxLength)` still succeeds with the
`min(maxLength, remaining())` scanned bytes and advances `position()` by that
amount — except that when the byte at the scan limit exists and is zero it is
additionally consumed (one extra position).  `pos + maxLength` is computed in
`usize` arithmetic, hence the no-overflow hypothesis. -/
theorem readNullTerminatedStringMax_spec (d : List Nat) (p m : Nat)
    (hp : p ≤ d.length) (hov : p + m < 2 ^ 64)
    (hnz : ∀ i, p ≤ i → i < min (p + m) d.length → d.getD i 1 ≠ 0) :
    BufferReader.readNullTerminatedStringMax ⟨d, p⟩ m =
      (some ((d.drop p).take (min m (d.length - p))),
       ⟨d, p + min m (d.length - p) +
          if p + min m (d.length - p) < d.length ∧
              d.getD (p + min m (d.length - p)) 1 = 0 then 1 else 0⟩) := by
  have hwadd : wAdd p m = p + m := by
    unfold wAdd usizeCard
    exact Nat.mod_eq_of_lt hov
  have hlim : min (p + m) d.length = p + min m (d.length - p) := by omega
  obtain ⟨h1, h2, h3, h4⟩ := scanZero_spec d p (min (p + m) d.length)
  have hstop : scanZero d p (min (p + m) d.length) = min (p + m) d.length := by
    have hple : p ≤ min (p + m) d.length := by omega
    rcases Nat.lt_or_ge (scanZero d p (min (p + m) d.length))
        (min (p + m) d.length) with hlt | hge
    · exact absurd (h4 hlt) (hnz _ h1 hlt)
    · omega
  simp only [BufferReader.readNullTerminatedStringMax, hwadd, hstop]
  rw [hlim]
  have harg : p + min m (d.length - p) - p = min m (d.length - p) := by omega
  rw [harg]
  by_cases hc : p + min m (d.length - p) < d.length ∧
      d.getD (p + min m (d.length - p)) 1 = 0
  · rw [if_pos hc, if_pos hc]
  · rw [if_neg hc, if_neg hc, Nat.add_zero]

/-- Witness for C5 at the claim's concrete scenario: a 10-byte zero-free
buffer with `maxLength = 5` yields a 5-byte string and `position() = 5`. -/
theorem readNullTerminatedStringMax_spec_witness :
    BufferReader.readNullTerminatedStringMax ⟨List.replicate 10 1, 0⟩ 5 =
      (some (List.replicate 5 1), ⟨List.replicate 10 1, 5⟩) := by
  refine (readNullTerminatedStringMax_spec (List.replicate 10 1) 0 5 (by decide)
      (by norm_num) ?_).trans (by decide)
  intro i hi hlt
  simp at hlt
  interval_cases i <;> decide

/-- C10: when 4 bytes of length prefix are available but announce more bytes
than remain, `readLengthPrefixedString()` fails with the prefix consumed:
`position()` has advanced by exactly 4 (no rollback). -/
theorem readLengthPrefixedString_prefix_consumed (d : List Nat) (p : Nat)
    (h4 : 4 ≤ d.length - p)
    (hlen : d.length - p - 4 < u32OfBytes ((d.drop p).take 4)) :
    BufferReader.readLengthPrefixedString ⟨d, p⟩ = (none, ⟨d, p + 4⟩) := by
  have hr : BufferReader.read ⟨d, p⟩ 4 = (some ((d.drop p).take 4), ⟨d, p + 4⟩) := by
    unfold BufferReader.read BufferReader.remaining
    rw [if_neg (by omega : ¬ (d.length - p < 4))]
  unfold BufferReader.readLengthPrefixedString BufferReader.readU32
      BufferReader.readString BufferReader.remaining
  rw [hr]
  dsimp only
  rw [if_pos (by omega : d.length - (p + 4) < u32OfBytes ((d.drop p).take 4))]

/-- Witness for C10: prefix `5` with only 2 payload bytes left. -/
theorem readLengthPrefixedString_prefix_consumed_witness :
    BufferReader.readLengthPrefixedString ⟨[5, 0, 0, 0, 1, 2], 0⟩ =
      (none, ⟨[5, 0, 0, 0, 1, 2], 4⟩) :=
  (readLengthPrefixedString_prefix_consumed [5, 0, 0, 0, 1, 2] 0 (by decide)
    (by decide)).trans (by decide)

/-!
### BufferWriter (Buffer.cpp / Buffer.hpp)

The writer owns a `Buffer` (a `std::vector<byte>`, modelled by its live
contents as a `List Nat`) and a cursor `pos`.
-/

structure BufferWriter where
  buf : List Nat
  pos : Nat
deriving DecidableEq, Repr

/-- `BufferWriter::write(const void*, usize)`.  `ensureCapacity` only reserves
capacity, which is unobservable.  The `memcpy` stores the bytes at
`[pos, pos + n)` in the vector's storage, but only the indices below the
vector's current size are live elements — the rest land in the raw capacity
region.  `updateSize()` then calls `std::vector::resize(m_pos)`, and `resize`
appends default-inserted elements, which for `std::byte` under `std::allocator`
are value-initialized to zero: the bytes the `memcpy` placed past the old size
are overwritten with `0`.  The observable result is therefore: bytes within
the old size are updated, bytes past it become zero. -/
def BufferWriter.write (w : BufferWriter) (bs : List Nat) : BufferWriter :=
  let live := w.buf.take w.pos ++ bs.take (w.buf.length - w.pos) ++
    w.buf.drop (w.pos + bs.length)
  let newPos := w.pos + bs.length
  if w.buf.length < newPos then ⟨live ++ List.replicate (newPos - live.length) 0, newPos⟩
  else ⟨live, newPos⟩

/-- Little-endian memory image of a `u32` value (the platform is
little-endian, so `toLittleEndian` is the identity). -/
def u32Bytes (v : Nat) : List Nat :=
  [v % 2 ^ 8, v / 2 ^ 8 % 2 ^ 8, v / 2 ^ 16 % 2 ^ 8, v / 2 ^ 24 % 2 ^ 8]

/-- `writeU32` = `writeLE<u32>`: write the 4-byte little-endian image. -/
def BufferWriter.writeU32 (w : BufferWriter) (v : Nat) : BufferWriter :=
  w.write (u32Bytes v)

/-- `writeLengthPrefixedString`: `write<u32>(str.size())` then the raw bytes. -/
def BufferWriter.writeLengthPrefixedString (w : BufferWriter) (s : List Nat) :
    BufferWriter :=
  (w.writeU32 (s.length % 2 ^ 32)).write s

/-- `toBuffer()`: yields the accumulated buffer (by move for an owned buffer;
either way the contents are the buffer's contents). -/
def BufferWriter.toBuffer (w : BufferWriter) : List Nat := w.buf

/-- C1: the claimed round-trip fails on the code.  A fresh writer receiving
`writeU32(42); writeLengthPrefixedString("ok")` produces a zero-filled 10-byte
buffer, because every extending `write` memcpys into the vector's capacity
region and `updateSize()` then resizes the vector, value-initializing exactly
those bytes to zero.  Reading back gives `readU32() = 0` (not 42),
`readLengthPrefixedString() = ""` (not "ok", via the zero length prefix), and
`eof() = false` (position 8 of 10).  ("ok" is the byte list `[111, 107]`.) -/
theorem writer_reader_roundtrip_clobbered :
    (((BufferWriter.mk [] 0).writeU32 42).writeLengthPrefixedString
        [111, 107]).toBuffer = List.replicate 10 0 ∧
    (BufferReader.mk (((BufferWriter.mk [] 0).writeU32 42).writeLengthPrefixedString
        [111, 107]).toBuffer 0).readU32.1 = some 0 ∧
    (BufferReader.mk (((BufferWriter.mk [] 0).writeU32 42).writeLengthPrefixedString
        [111, 107]).toBuffer 0).readU32.1 ≠ some 42 ∧
    ((BufferReader.mk (((BufferWriter.mk [] 0).writeU32 42).writeLengthPrefixedString
        [111, 107]).toBuffer 0).readU32.2.readLengthPrefixedString.1 = some []) ∧
    ((BufferReader.mk (((BufferWriter.mk [] 0).writeU32 42).writeLengthPrefixedString
        [111, 107]).toBuffer 0).readU32.2.readLengthPrefixedString.1 ≠ some [111, 107]) ∧
    ((BufferReader.mk (((BufferWriter.mk [] 0).writeU32 42).writeLengthPrefixedString
        [111, 107]).toBuffer 0).readU32.2.readLengthPrefixedString.2.eof = false) := by
  decide

/-!
### Buffer::subspan and the two Span types

`Buffer.hpp` includes `Types.hpp`, where `ConstByteSpan = std::span<const
byte>`, so `Buffer::subspan(offset, count)` delegates to
`std::span::subspan`.  The standard imposes the precondition
`offset <= size() && (count == dynamic_extent || count <= size() - offset)`;
a violation is undefined behaviour, modelled as `none`.  The repository also
ships its own clamping span, `include/dakt/core/types/Span.hpp`, used by the
`Core.hpp` aggregate — it is modelled below as `Span.subspanClamped` for
comparison with the spec's words.
-/

/-- A span view descriptor: start offset and length within the viewed data. -/
structure SpanView where
  start : Nat
  len : Nat
deriving DecidableEq, Repr

/-- `std::dynamic_extent` / the hand-rolled span's `npos`:
`static_cast<size_t>(-1)`. -/
def dynamicExtent : Nat := usizeCard - 1

/-- `std::span::subspan(offset, count)`: no clamping; `none` models the
violated precondition (undefined behaviour). -/
def stdSubspan (size offset count : Nat) : Option SpanView :=
  if offset ≤ size ∧ (count = dynamicExtent ∨ count ≤ size - offset) then
    some ⟨offset, if count = dynamicExtent then size - offset else count⟩
  else none

/-- `Buffer::subspan(offset, count)`:
`ConstByteSpan(m_data).subspan(offset, count)` with `ConstByteSpan` =
`std::span<const byte>`. -/
def Buffer.subspan (b : List Nat) (offset count : Nat) : Option SpanView :=
  stdSubspan b.length offset count

/-- The repository's own `Span::subspan` (types/Span.hpp): offset past the
end yields the default empty span, and the count is clamped to the available
length. -/
def Span.subspanClamped (size offset count : Nat) : SpanView :=
  if size < offset then ⟨0, 0⟩
  else ⟨offset, if count = dynamicExtent then size - offset
                else min count (size - offset)⟩

/-- C2: the claim fails on the code path.  On a 4-byte buffer,
`subspan(0, 10)` violates `std::span::subspan`'s precondition (undefined
behaviour; a hardened build aborts, an unhardened one returns an out-of-range
10-byte view) instead of returning the claimed clamped `min(10, 4) = 4`-byte
view.  The repository's own span type clamps exactly as the spec says, which
marks the spec as the intent and Buffer's use of the `std::span` alias as the
slip. -/
theorem buffer_subspan_not_clamped :
    Buffer.subspan [1, 2, 3, 4] 0 10 = none ∧
    Buffer.subspan [1, 2, 3, 4] 0 10 ≠ some ⟨0, min 10 (4 - 0)⟩ ∧
    Span.subspanClamped 4 0 10 = ⟨0, 4⟩ := by
  refine ⟨?_, ?_, ?_⟩
  · unfold Buffer.subspan stdSubspan dynamicExtent usizeCard
    rw [if_neg (by norm_num)]
  · unfold Buffer.subspan stdSubspan dynamicExtent usizeCard
    rw [if_neg (by norm_num)]
    exact Option.noConfusion
  · unfold Span.subspanClamped dynamicExtent usizeCard
    rw [if_neg (by norm_num)]
    norm_num

/-!
### ArenaAllocator (memory translation unit)

The arena owns a fixed region of `capacity` bytes and a bump `offset`.
Returned pointers are `region + alignedOffset`; the model returns the
`alignedOffset` (the pointer's offset from the region base).
-/

structure ArenaAllocator where
  offset : Nat
  capacity : Nat
deriving DecidableEq, Repr

/-- `ArenaAllocator::allocate(size, alignment)`: bump allocation.  All `usize`
arithmetic (`alignUp`, `alignedOffset + size`) wraps modulo `2 ^ 64`. -/
def ArenaAllocator.allocate (ar : ArenaAllocator) (size alignment : Nat) :
    Option Nat × ArenaAllocator :=
  if size = 0 then (none, ar)
  else
    let alignedOffset := alignUp ar.offset alignment
    if ar.capacity < wAdd alignedOffset size then (none, ar)
    else (some alignedOffset, ⟨wAdd alignedOffset size, ar.capacity⟩)

/-- C6: `allocate(size, alignment)` on an arena returns null with `offset`
unchanged for `size = 0`; fails (returns null, no heap fallback, no abort)
with `offset` unchanged when `alignedOffset + size > capacity`; and otherwise
returns `region + alignedOffset` and advances `offset` to
`alignedOffset + size`, where `alignedOffset = alignUp(offset, alignment)`. -/
theorem arena_allocate_spec (off cap size a : Nat) (_ha : ∃ k, k ≤ 63 ∧ a = 2 ^ k) :
    ArenaAllocator.allocate ⟨off, cap⟩ size a =
      if size = 0 then (none, ⟨off, cap⟩)
      else if cap < wAdd (alignUp off a) size then (none, ⟨off, cap⟩)
      else (some (alignUp off a), ⟨wAdd (alignUp off a) size, cap⟩) := rfl

/-- Witness for C6: an arena at offset 3 with capacity 100 serving a 10-byte
allocation aligned to 8 returns offset 8 and bumps to 18. -/
theorem arena_allocate_spec_witness :
    (∃ k, k ≤ 63 ∧ (8 : Nat) = 2 ^ k) ∧
    ArenaAllocator.allocate ⟨3, 100⟩ 10 8 = (some 8, ⟨18, 100⟩) :=
  ⟨⟨3, by norm_num, by norm_num⟩,
    (arena_allocate_spec 3 100 10 8 ⟨3, by norm_num, by norm_num⟩).trans (by decide)⟩

/-!
### PoolAllocator (memory translation unit)

Blocks are modelled by their indices `0 .. blockCount - 1`.  The intrusive
free list threaded through the raw blocks is modelled as the list of free
block indices, head first.  `sizeof(FreeBlock)` (one pointer) is 8 on the
64-bit target, so the constructor widens `blockSize` to at least 8.
-/

structure PoolAllocator where
  blockSize : Nat
  blockCount : Nat
  freeList : List Nat
  freeCount : Nat
deriving DecidableEq, Repr

/-- The `PoolAllocator(blockSize, blockCount)` constructor: widens the block
size, then pushes blocks `0, 1, ..., blockCount - 1` onto the free-list head
in order, so the resulting list is `[blockCount - 1, ..., 1, 0]`. -/
def PoolAllocator.init (blockSize blockCount : Nat) : PoolAllocator :=
  ⟨max blockSize 8, blockCount, (List.range blockCount).reverse, blockCount⟩

/-- `PoolAllocator::allocate(size, alignment)`: fails when `size` exceeds the
block size or the free list is empty; otherwise pops the free-list head. -/
def PoolAllocator.allocate (p : PoolAllocator) (size _alignment : Nat) :
    Option Nat × PoolAllocator :=
  if p.blockSize < size ∨ p.freeList = [] then (none, p)
  else
    match p.freeList with
    | [] => (none, p)
    | b :: rest => (some b, ⟨p.blockSize, p.blockCount, rest, p.freeCount - 1⟩)

/-- `PoolAllocator::deallocate(ptr, size)`: pushes the block back onto the
free-list head (`size` is ignored; the in-region assertion holds for any
valid block index). -/
def PoolAllocator.deallocate (p : PoolAllocator) (ptr _size : Nat) : PoolAllocator :=
  ⟨p.blockSize, p.blockCount, ptr :: p.freeList, p.freeCount + 1⟩

/-- A client-visible pool operation. -/
inductive PoolOp where
  | alloc : Nat → PoolOp
  | free : Nat → PoolOp

/-- One step of pool usage, also tracking the multiset of currently allocated
blocks (second component). -/
def poolStep (s : PoolAllocator × List Nat) (op : PoolOp) : PoolAllocator × List Nat :=
  match op with
  | .alloc size =>
    match s.1.allocate size 16 with
    | (some b, p) => (p, b :: s.2)
    | (none, p) => (p, s.2)
  | .free b => (s.1.deallocate b 0, s.2.erase b)

def poolRun (s : PoolAllocator × List Nat) : List PoolOp → PoolAllocator × List Nat
  | [] => s
  | op :: ops => poolRun (poolStep s op) ops

/-- Validity of an operation sequence: `deallocate` is applied only to blocks
currently allocated (and not already freed). -/
def poolValid (s : PoolAllocator × List Nat) : List PoolOp → Bool
  | [] => true
  | op :: ops =>
    (match op with
     | .free b => decide (b ∈ s.2)
     | .alloc _ => true) && poolValid (poolStep s op) ops

lemma poolRun_inv (ops : List PoolOp) :
    ∀ s : PoolAllocator × List Nat,
      s.1.freeList.length = s.1.freeCount →
      s.1.freeCount + s.2.length = s.1.blockCount →
      poolValid s ops = true →
      (poolRun s ops).1.freeList.length = (poolRun s ops).1.freeCount ∧
      (poolRun s ops).1.freeCount + (poolRun s ops).2.length =
        (poolRun s ops).1.blockCount := by
  induction ops with
  | nil =>
    intro s h1 h2 _
    exact ⟨h1, h2⟩
  | cons op ops ih =>
    intro s h1 h2 hv
    rw [poolValid.eq_def, Bool.and_eq_true] at hv
    obtain ⟨hop, hrest⟩ := hv
    rw [poolRun]
    refine ih (poolStep s op) ?_ ?_ hrest
    all_goals
      cases op with
      | alloc size =>
        rw [poolStep]
        unfold PoolAllocator.allocate
        by_cases hc : s.1.blockSize < size ∨ s.1.freeList = []
        · rw [if_pos hc]
          first
          | exact h1
          | exact h2
        · rw [if_neg hc]
          push_neg at hc
          obtain ⟨-, hne⟩ := hc
          match hfl : s.1.freeList with
          | [] => exact absurd hfl hne
          | b :: rest =>
            rw [hfl] at h1
            simp only [List.length_cons] at h1
            simp only [List.length_cons]
            omega
      | free b =>
        rw [poolStep]
        unfold PoolAllocator.deallocate
        simp only [decide_eq_true_eq] at hop
        have herase : (s.2.erase b).length = s.2.length - 1 :=
          List.length_erase_of_mem hop
        have hmem : 1 ≤ s.2.length := List.length_pos.mpr
          (List.ne_nil_of_mem hop)
        simp only [List.length_cons, herase]
        omega

/-- C7: for every valid operation sequence (deallocate only on currently
allocated blocks) run from a fresh pool, `freeCount + currently-allocated =
blockCount` and `freeCount <= blockCount` hold afterwards (hence after every
operation, since every prefix of a valid sequence is again a valid sequence),
and `allocate(size, _)` fails exactly when `size > blockSize()` or
`freeCount() = 0`. -/
theorem pool_invariant (blockSize blockCount : Nat) (ops : List PoolOp)
    (hv : poolValid (PoolAllocator.init blockSize blockCount, []) ops = true) :
    (poolRun (PoolAllocator.init blockSize blockCount, []) ops).1.freeCount +
      (poolRun (PoolAllocator.init blockSize blockCount, []) ops).2.length =
      (poolRun (PoolAllocator.init blockSize blockCount, []) ops).1.blockCount ∧
    (poolRun (PoolAllocator.init blockSize blockCount, []) ops).1.freeCount ≤
      (poolRun (PoolAllocator.init blockSize blockCount, []) ops).1.blockCount ∧
    (∀ size al,
      ((poolRun (PoolAllocator.init blockSize blockCount, []) ops).1.allocate
          size al).1 = none ↔
        ((poolRun (PoolAllocator.init blockSize blockCount, []) ops).1.blockSize <
            size ∨
          (poolRun (PoolAllocator.init blockSize blockCount, []) ops).1.freeCount
            = 0)) := by
  have hinit1 : (PoolAllocator.init blockSize blockCount, ([] : List Nat)).1.freeList.length =
      (PoolAllocator.init blockSize blockCount, ([] : List Nat)).1.freeCount := by
    simp [PoolAllocator.init]
  have hinit2 : (PoolAllocator.init blockSize blockCount, ([] : List Nat)).1.freeCount +
      (PoolAllocator.init blockSize blockCount, ([] : List Nat)).2.length =
      (PoolAllocator.init blockSize blockCount, ([] : List Nat)).1.blockCount := by
    simp [PoolAllocator.init]
  obtain ⟨h1, h2⟩ := poolRun_inv ops _ hinit1 hinit2 hv
  refine ⟨h2, by omega, ?_⟩
  intro size al
  unfold PoolAllocator.allocate
  by_cases hc : (poolRun (PoolAllocator.init blockSize blockCount, []) ops).1.blockSize
      < size ∨ (poolRun (PoolAllocator.init blockSize blockCount, []) ops).1.freeList = []
  · rw [if_pos hc]
    constructor
    · intro _
      rcases hc with hc | hc
      · exact Or.inl hc
      · refine Or.inr ?_
        rw [← h1, hc]
        rfl
    · intro _
      rfl
  · rw [if_neg hc]
    push_neg at hc
    obtain ⟨hsz, hne⟩ := hc
    match hfl : (poolRun (PoolAllocator.init blockSize blockCount, []) ops).1.freeList with
    | [] => exact absurd hfl hne
    | b :: rest =>
      simp only []
      constructor
      · intro habs
        exact absurd habs (by simp)
      · intro habs
        rcases habs with habs | habs
        · omega
        · rw [habs] at h1
          rw [hfl] at h1
          simp at h1

/-- Witness for C7: block size 4 widened to 8, two blocks; one allocation
(pops block 1) followed by its deallocation is valid; afterwards the
invariant holds and a 9-byte request fails by the exact failure condition. -/
theorem pool_invariant_witness :
    poolValid (PoolAllocator.init 4 2, []) [PoolOp.alloc 3, PoolOp.free 1] = true ∧
    ((poolRun (PoolAllocator.init 4 2, []) [PoolOp.alloc 3, PoolOp.free 1]).1.freeCount +
        (poolRun (PoolAllocator.init 4 2, []) [PoolOp.alloc 3, PoolOp.free 1]).2.length =
        (poolRun (PoolAllocator.init 4 2, []) [PoolOp.alloc 3, PoolOp.free 1]).1.blockCount) ∧
    ((poolRun (PoolAllocator.init 4 2, []) [PoolOp.alloc 3, PoolOp.free 1]).1.freeCount ≤
        (poolRun (PoolAllocator.init 4 2, []) [PoolOp.alloc 3, PoolOp.free 1]).1.blockCount) ∧
    (((poolRun (PoolAllocator.init 4 2, []) [PoolOp.alloc 3, PoolOp.free 1]).1.allocate
        9 8).1 = none ↔
      ((poolRun (PoolAllocator.init 4 2, []) [PoolOp.alloc 3, PoolOp.free 1]).1.blockSize < 9 ∨
        (poolRun (PoolAllocator.init 4 2, []) [PoolOp.alloc 3, PoolOp.free 1]).1.freeCount = 0)) := by
  have h := pool_invariant 4 2 [PoolOp.alloc 3, PoolOp.free 1] (by decide)
  exact ⟨by decide, h.1, h.2.1, h.2.2 9 8⟩

/-!
### HeapAllocator (memory translation unit)

The process heap is modelled as a map from block addresses to block contents
(`none` bytes are uninitialized), plus a monotone counter supplying fresh
addresses.  The platform allocator is idealized as never failing for a
positive size — out-of-memory is an environmental condition outside the
embedding — and the debug statistics are compiled out.
-/

structure HeapState where
  next : Nat
  blocks : List (Nat × List (Option Nat))
deriving DecidableEq, Repr

/-- Contents of the block at address `a` (the block found first). -/
def HeapState.lookup (h : HeapState) (a : Nat) : List (Option Nat) :=
  match h.blocks.find? (fun b => decide (b.1 = a)) with
  | some b => b.2
  | none => []

/-- `memcpy(dest, ..., bs.length)` into the front of the block at address
`a`. -/
def HeapState.store (h : HeapState) (a : Nat) (bs : List (Option Nat)) : HeapState :=
  ⟨h.next, h.blocks.map fun b => if b.1 = a then (b.1, bs ++ b.2.drop bs.length) else b⟩

/-- `HeapAllocator::allocate(size, alignment)`: null for `size = 0`, otherwise
a fresh uninitialized block of `size` usable bytes. -/
def HeapAllocator.allocate (h : HeapState) (size _alignment : Nat) :
    Option Nat × HeapState :=
  if size = 0 then (none, h)
  else (some h.next, ⟨h.next + size, (h.next, List.replicate size none) :: h.blocks⟩)

/-- `HeapAllocator::deallocate(ptr, size)`: frees the block; null is a
no-op. -/
def HeapAllocator.deallocate (h : HeapState) (ptr : Option Nat) (_size : Nat) :
    HeapState :=
  match ptr with
  | none => h
  | some a => ⟨h.next, h.blocks.filter fun b => decide (b.1 ≠ a)⟩

/-- `HeapAllocator::reallocate(ptr, oldSize, newSize, alignment)`: deallocate
for `newSize = 0`; plain allocate for a null `ptr`; otherwise allocate fresh,
`memcpy` `min(oldSize, newSize)` bytes, free the old block (the allocation
failure branch is kept for faithfulness; the idealized allocator never takes
it for a positive size). -/
def HeapAllocator.reallocate (h : HeapState) (ptr : Option Nat)
    (oldSize newSize alignment : Nat) : Option Nat × HeapState :=
  if newSize = 0 then (none, HeapAllocator.deallocate h ptr oldSize)
  else
    match ptr with
    | none => HeapAllocator.allocate h newSize alignment
    | some a =>
      match HeapAllocator.allocate h newSize alignment with
      | (some na, h1) =>
        let h2 := h1.store na ((h1.lookup a).take (min oldSize newSize))
        (some na, HeapAllocator.deallocate h2 (some a) oldSize)
      | (none, h1) => (none, h1)

/-- C9: `reallocate(ptr, oldSize, newSize, alignment)` deallocates and
returns null for `newSize = 0`; behaves as `allocate(newSize, alignment)` for
a null `ptr`; and otherwise always allocates a fresh block (a new address —
no in-place growth), copies exactly `min(oldSize, newSize)` bytes of the old
contents into it, frees the old block, and returns the new block. -/
theorem heap_reallocate_spec (h : HeapState) (a oldSize newSize al : Nat)
    (old : List (Option Nat))
    (hwf : ∀ b ∈ h.blocks, b.1 < h.next)
    (hfind : h.blocks.find? (fun b => decide (b.1 = a)) = some (a, old))
    (hlen : old.length = oldSize) :
    (0 < newSize →
      HeapAllocator.reallocate h (some a) oldSize newSize al =
        (some h.next,
         ⟨h.next + newSize,
          (h.next, old.take (min oldSize newSize) ++
            List.replicate (newSize - min oldSize newSize) none) ::
            h.blocks.filter fun b => decide (b.1 ≠ a)⟩)) ∧
    (newSize = 0 →
      HeapAllocator.reallocate h (some a) oldSize newSize al =
        (none, HeapAllocator.deallocate h (some a) oldSize)) ∧
    (∀ n2, HeapAllocator.reallocate h none oldSize n2 al =
        if n2 = 0 then (none, h) else HeapAllocator.allocate h n2 al) ∧
    h.next ≠ a := by
  have hmem : (a, old) ∈ h.blocks := List.mem_of_find?_eq_some hfind
  have hna : h.next ≠ a := by
    have := hwf (a, old) hmem
    simp only at this
    omega
  refine ⟨?_, ?_, ?_, hna⟩
  · intro hpos
    unfold HeapAllocator.reallocate
    rw [if_neg (by omega : ¬ newSize = 0)]
    unfold HeapAllocator.allocate
    rw [if_neg (by omega : ¬ newSize = 0)]
    simp only []
    have hlook : HeapState.lookup
        ⟨h.next + newSize, (h.next, List.replicate newSize none) :: h.blocks⟩ a = old := by
      unfold HeapState.lookup
      rw [List.find?_cons_of_neg _ (by simp [hna]), hfind]
    rw [hlook]
    have hbslen : (old.take (min oldSize newSize)).length = min oldSize newSize := by
      rw [List.length_take, hlen]
      omega
    unfold HeapState.store
    simp only [List.map_cons, if_pos rfl]
    have hdrop : (List.replicate newSize (none : Option Nat)).drop
        (old.take (min oldSize newSize)).length =
        List.replicate (newSize - min oldSize newSize) none := by
      rw [hbslen, List.drop_replicate]
    rw [hdrop]
    have hmapid : (h.blocks.map fun b =>
        if b.1 = h.next then (b.1, old.take (min oldSize newSize) ++ b.2.drop
          (old.take (min oldSize newSize)).length) else b) = h.blocks := by
      have hcongr : (h.blocks.map fun b =>
          if b.1 = h.next then (b.1, old.take (min oldSize newSize) ++ b.2.drop
            (old.take (min oldSize newSize)).length) else b) = h.blocks.map id := by
        apply List.map_congr_left
        intro b hb
        rw [if_neg (by have := hwf b hb; omega)]
        rfl
      rw [hcongr, List.map_id]
    rw [hmapid]
    simp only [if_pos trivial]
    unfold HeapAllocator.deallocate
    simp only [List.filter_cons, decide_eq_true_eq]
    rw [if_pos (by omega : ¬ h.next = a)]
  · intro h0
    unfold HeapAllocator.reallocate
    rw [if_pos h0]
  · intro n2
    by_cases h0 : n2 = 0
    · rw [if_pos h0]
      unfold HeapAllocator.reallocate
      rw [if_pos h0]
      rfl
    · rw [if_neg h0]
      unfold HeapAllocator.reallocate
      rw [if_neg h0]

/-- Witness for C9: a one-block heap, growing the 2-byte block at address 0
to 3 bytes: the data moves to fresh address 1, the two old bytes are copied,
the third byte is uninitialized, and the old block is gone. -/
theorem heap_reallocate_spec_witness :
    HeapAllocator.reallocate ⟨1, [(0, [some 7, some 8])]⟩ (some 0) 2 3 8 =
      (some 1, ⟨4, [(1, [some 7, some 8, none])]⟩) :=
  ((heap_reallocate_spec ⟨1, [(0, [some 7, some 8])]⟩ 0 2 3 8 [some 7, some 8]
    (by decide) (by decide) (by decide)).1 (by norm_num)).trans (by decide)
